import Mathlib

/-!
Shallow embedding of the python-inject repository (src/src/inject):
the binding registry, the injection descriptors and decorators of
injections.py, and the WSGI middleware of middleware.py.

Python dicts are modelled as association lists over String keys,
python classes and binding keys as inductive types, and the fallible
parts of a call (injector misses, python call-binding errors) as
Except values.
-/

namespace PyInject

/-- Lookup in a python dict modelled as an association list: the first
entry for the key wins. -/
def dlookup {α : Type} : List (String × α) → String → Option α
  | [], _ => none
  | (k, v) :: rest, key => if k = key then some v else dlookup rest key

/-- Assignment d[key] = v on a python dict modelled as an association
list: an existing entry is updated in place, a new key is appended. -/
def dinsert {α : Type} : List (String × α) → String → α → List (String × α)
  | [], key, v => [(key, v)]
  | (k, w) :: rest, key, v =>
      if k = key then (k, v) :: rest else (k, w) :: dinsert rest key v

/-- Removal d.pop(key) on a python dict modelled as an association list. -/
def dpop {α : Type} : List (String × α) → String → List (String × α)
  | [], _ => []
  | (k, w) :: rest, key => if k = key then rest else (k, w) :: dpop rest key

/-- Python builtin types and user classes, as far as the binding key model
inspects them. -/
inductive PyType
  | bool | int | float | complex | bytes | bytearray | dict | list | tuple
  | range | set | frozenset | str
  | user (name : String)
deriving DecidableEq

/-- Binding keys: a type, a string name, or a Tagged (type, tag) pair, as
the spec describes the binding request model. -/
inductive BKey
  | cls (t : PyType)
  | strName (s : String)
  | tagged (t : PyType) (tag : String)
deriving DecidableEq

/-- Modelled from the spec: the module inject.injectors is absent from src.
The spec describes a process-wide registry mapping binding keys to concrete
instances, and the tests in src/src/inject_tests pin the observable
behaviour of bind and get_instance: after bind(A, a) a lookup of A yields
a, and after a further bind(A, a2) a lookup of A yields a2. The registry is
therefore a list of bindings, most recent first. -/
abbrev Registry (α : Type) := List (BKey × α)

/-- Modelled from the spec: Injector.bind registers an instance for a key. -/
def Injector.bind {α : Type} (r : Registry α) (k : BKey) (v : α) : Registry α :=
  (k, v) :: r

/-- Modelled from the spec: get_instance returns the instance currently
bound to a key, the most recently registered binding first. -/
def Injector.get_instance {α : Type} : Registry α → BKey → Option α
  | [], _ => none
  | (k, v) :: rest, key =>
      if k = key then some v else Injector.get_instance rest key

/-- InjectionPoint of injections.py, slots (type, none); the field none is
renamed noneFlag here. -/
structure InjectionPoint where
  type : BKey
  noneFlag : Bool
deriving DecidableEq

/-- InjectionPoint.get_instance delegates to the injector. -/
def InjectionPoint.get_instance {α : Type} (p : InjectionPoint)
    (r : Registry α) : Option α :=
  Injector.get_instance r p.type

/-- AttributeInjection of injections.py: attr is None until detected from
the owner class, or the given name for NamedAttributeInjection. -/
structure AttributeInjection where
  attr : Option String
  injection : InjectionPoint
deriving DecidableEq

/-- The AttributeInjection constructor: no attribute name yet. -/
def AttributeInjection.make (t : BKey) (noneFlag : Bool) : AttributeInjection :=
  ⟨none, ⟨t, noneFlag⟩⟩

/-- The NamedAttributeInjection constructor: the attribute name is given. -/
def NamedAttributeInjection.make (attrName : String) (t : BKey)
    (noneFlag : Bool) : AttributeInjection :=
  ⟨some attrName, ⟨t, noneFlag⟩⟩

/-- Python attribute access on an instance whose class declares the
descriptor d under the class attribute declName. AttributeInjection defines
no set or delete slot, so it is a non-data descriptor: an entry in the
instance dict shadows it. Otherwise its get slot runs: it resolves the
attribute name (the stored one, else the detected declName, which
AttributeInjection.get also stores for later calls), fetches the bound
instance from the registry and stores it in the instance dict via setattr.
The result is the value and the updated instance dict; none models a failed
injector lookup. -/
def attrAccess {α : Type} (d : AttributeInjection) (declName : String)
    (r : Registry α) (idict : List (String × α)) :
    Option (α × List (String × α)) :=
  match dlookup idict declName with
  | some v => some (v, idict)
  | none =>
    match d.injection.get_instance r with
    | some obj => some (obj, dinsert idict (d.attr.getD declName) obj)
    | none => none

/-- ClassAttributeInjection of injections.py. -/
structure ClassAttributeInjection where
  injection : InjectionPoint
deriving DecidableEq

/-- The ClassAttributeInjection constructor. -/
def ClassAttributeInjection.make (t : BKey) (noneFlag : Bool) :
    ClassAttributeInjection :=
  ⟨⟨t, noneFlag⟩⟩

/-- The get slot of ClassAttributeInjection: the instance and owner
arguments are ignored and a fresh injector lookup is performed on every
access; nothing is stored anywhere. -/
def ClassAttributeInjection.descGet {α β : Type} (d : ClassAttributeInjection)
    (_instOwner : β) (r : Registry α) : Option α :=
  d.injection.get_instance r

/-! Basic dict lemmas shared by the claims. -/

theorem dlookup_dinsert_self {α : Type} (d : List (String × α)) (k : String)
    (v : α) : dlookup (dinsert d k v) k = some v := by
  induction d with
  | nil => simp [dinsert, dlookup]
  | cons hd tl ih =>
    obtain ⟨k2, v2⟩ := hd
    by_cases h : k2 = k
    · subst h; simp [dinsert, dlookup]
    · simp [dinsert, dlookup, h, ih]

theorem dlookup_dinsert_ne {α : Type} (d : List (String × α)) (k m : String)
    (v : α) (h : k ≠ m) : dlookup (dinsert d k v) m = dlookup d m := by
  induction d with
  | nil => simp [dinsert, dlookup, h]
  | cons hd tl ih =>
    obtain ⟨k2, v2⟩ := hd
    by_cases h2 : k2 = k
    · subst h2; simp [dinsert, dlookup, h]
    · simp [dinsert, dlookup, h2, ih]

theorem mem_dinsert_keys {α : Type} (d : List (String × α)) (k : String)
    (v : α) (m : String) :
    m ∈ (dinsert d k v).map Prod.fst ↔ m = k ∨ m ∈ d.map Prod.fst := by
  induction d with
  | nil => simp [dinsert]
  | cons hd tl ih =>
    obtain ⟨k2, v2⟩ := hd
    by_cases h2 : k2 = k
    · subst h2; simp [dinsert]
    · simp [dinsert, h2, ih]; tauto

theorem dinsert_keys_nodup {α : Type} (d : List (String × α)) (k : String)
    (v : α) (h : (d.map Prod.fst).Nodup) :
    ((dinsert d k v).map Prod.fst).Nodup := by
  induction d with
  | nil => simp [dinsert]
  | cons hd tl ih =>
    obtain ⟨k2, v2⟩ := hd
    rw [List.map_cons, List.nodup_cons] at h
    by_cases h2 : k2 = k
    · subst h2
      rw [show dinsert ((k2, v2) :: tl) k2 v = (k2, v) :: tl from by
        simp [dinsert]]
      rw [List.map_cons, List.nodup_cons]
      exact h
    · rw [show dinsert ((k2, v2) :: tl) k v = (k2, v2) :: dinsert tl k v from by
        simp [dinsert, h2]]
      rw [List.map_cons, List.nodup_cons]
      refine ⟨fun hm => ?_, ih h.2⟩
      rcases (mem_dinsert_keys tl k v k2).mp hm with h3 | h3
      · exact h2 h3
      · exact h.1 h3

/-! C4 and C5. -/

/-- C4 counterexample: in the registry model pinned by the tests of the
repository, registering a second binding for the key "a" makes every lookup
indistinguishable from a registry holding only the second binding; the
lookup of "a" returns only the most recently bound instance 1, not an
aggregate that also reflects the earlier instance 0. -/
theorem c4_rebind_replaces_counterexample :
    Injector.get_instance
        (Injector.bind (Injector.bind ([] : Registry Nat) (BKey.strName "a") 0)
          (BKey.strName "a") 1) (BKey.strName "a") = some 1 ∧
    Injector.get_instance
        (Injector.bind (Injector.bind ([] : Registry Nat) (BKey.strName "a") 0)
          (BKey.strName "a") 1)
      = Injector.get_instance (Injector.bind ([] : Registry Nat) (BKey.strName "a") 1) := by
  refine ⟨by decide, funext fun k => ?_⟩
  by_cases h : BKey.strName "a" = k <;>
    simp [Injector.bind, Injector.get_instance, h]

/-- C4 amended: a later binding for a key shadows the earlier one; a
subsequent lookup of that key returns exactly the most recently bound
instance, as the tests of the repository assert. -/
theorem c4_rebind_shadows {α : Type} (r : Registry α) (k : BKey) (v1 v2 : α) :
    Injector.get_instance (Injector.bind (Injector.bind r k v1) k v2) k
      = some v2 := by
  simp [Injector.bind, Injector.get_instance]

/-- C5: every access of a ClassAttributeInjection performs a fresh registry
lookup: the access equals the injector lookup of the bound key, is
independent of the accessing instance or owner, and immediately after the
key is rebound an access returns the newly bound instance. -/
theorem c5_class_attr_always_fresh {α β : Type} (d : ClassAttributeInjection)
    (r : Registry α) (i1 i2 : β) (v : α) :
    ClassAttributeInjection.descGet d i1 r
        = Injector.get_instance r d.injection.type ∧
    ClassAttributeInjection.descGet d i1 r
        = ClassAttributeInjection.descGet d i2 r ∧
    ClassAttributeInjection.descGet d i1 (Injector.bind r d.injection.type v)
        = some v := by
  refine ⟨rfl, rfl, ?_⟩
  simp [ClassAttributeInjection.descGet, InjectionPoint.get_instance,
    Injector.bind, Injector.get_instance]

/-! C3: attribute caching of AttributeInjection and NamedAttributeInjection. -/

/-- C3: the first access of an AttributeInjection (or a
NamedAttributeInjection declared under its own attribute name) fetches the
instance bound to the key from the registry and stores it in the instance
dict; every later access on the same instance returns the stored value and
leaves the instance dict unchanged, under any registry whatsoever, so
rebinding the key afterwards does not change what the attribute reads. -/
theorem c3_attr_access_caches {α : Type} (d : AttributeInjection)
    (declName : String) (r : Registry α) (idict idict2 : List (String × α))
    (v : α)
    (hattr : d.attr = none ∨ d.attr = some declName)
    (h0 : dlookup idict declName = none)
    (h1 : attrAccess d declName r idict = some (v, idict2)) :
    Injector.get_instance r d.injection.type = some v ∧
    dlookup idict2 declName = some v ∧
    ∀ r2 : Registry α, attrAccess d declName r2 idict2 = some (v, idict2) := by
  have hattr2 : d.attr.getD declName = declName := by
    rcases hattr with h | h <;> simp [h]
  rw [attrAccess, h0, hattr2] at h1
  cases hg : d.injection.get_instance r with
  | none => rw [hg] at h1; exact absurd h1 (by simp)
  | some obj =>
    rw [hg] at h1
    have hv : obj = v ∧ dinsert idict declName obj = idict2 := by
      have := Option.some.inj h1
      exact ⟨congrArg Prod.fst this, congrArg Prod.snd this⟩
    obtain ⟨hv1, hv2⟩ := hv
    subst hv1
    have hcache : dlookup idict2 declName = some obj := by
      rw [← hv2]; exact dlookup_dinsert_self idict declName obj
    refine ⟨hg, hcache, fun r2 => ?_⟩
    rw [attrAccess, hcache]

/-- C3 witness: at a concrete instance, the first access of an attribute
injection for the key "a" bound to 5 yields 5 and caches it, and a second
access under a registry where "a" is rebound to 9 still yields 5 and keeps
the instance dict unchanged. -/
theorem c3_attr_access_caches_witness :
    Injector.get_instance [(BKey.strName "a", (5 : Nat))] (BKey.strName "a")
        = some 5 ∧
    dlookup [("a", (5 : Nat))] "a" = some 5 ∧
    attrAccess ⟨none, ⟨BKey.strName "a", false⟩⟩ "a"
        [(BKey.strName "a", (9 : Nat))] [("a", 5)] = some (5, [("a", 5)]) := by
  have h := c3_attr_access_caches ⟨none, ⟨BKey.strName "a", false⟩⟩ "a"
    [(BKey.strName "a", (5 : Nat))] [] [("a", 5)] 5
    (Or.inl rfl) (by decide) (by decide)
  exact ⟨h.1, h.2.1, h.2.2 [(BKey.strName "a", 9)]⟩

/-! ParamInjection: the decorator, the wrapper and a python call. -/

/-- Signature information of a plain python function as ParamInjection and a
call see it: the positional parameter names, how many of the trailing ones
have declared defaults, the other local variable names of the code object,
and the code flags 0x04 (varargs) and 0x08 (varkw). -/
structure PyFunc where
  args : List String
  numDefaults : Nat
  localVars : List String
  hasVarargs : Bool
  hasKwargs : Bool
deriving DecidableEq

/-- co_varnames of the code object: parameters first, then locals. -/
def PyFunc.co_varnames (f : PyFunc) : List String :=
  f.args ++ f.localVars

/-- NoParamError of inject.exc, raised by add_injection. -/
structure NoParamError where
  name : String
deriving DecidableEq

/-- Decidable equality of Except values, so that concrete wrapper calls can
be evaluated inside decide. -/
instance {ε α : Type} [DecidableEq ε] [DecidableEq α] :
    DecidableEq (Except ε α) := fun x y =>
  match x, y with
  | .error e1, .error e2 =>
    if h : e1 = e2 then isTrue (by rw [h]) else
      isFalse (fun hc => h (Except.error.inj hc))
  | .error _, .ok _ => isFalse (fun hc => Except.noConfusion hc)
  | .ok _, .error _ => isFalse (fun hc => Except.noConfusion hc)
  | .ok v1, .ok v2 =>
    if h : v1 = v2 then isTrue (by rw [h]) else
      isFalse (fun hc => h (Except.ok.inj hc))

/-- The state of an injection wrapper built by create_wrapper: the wrapped
plain function (wrapper.func) and the injections dict
(wrapper.injections). -/
structure Wrapper where
  func : PyFunc
  injections : List (String × InjectionPoint)
deriving DecidableEq

/-- A callable as the decorator of ParamInjection sees it: either a plain
function or an existing injection wrapper (the injection_wrapper flag read
by getattr). -/
inductive FuncOrWrapper
  | plain (f : PyFunc)
  | wrapped (w : Wrapper)
deriving DecidableEq

/-- ParamInjection.create_wrapper: a fresh wrapper with an empty injections
dict. -/
def ParamInjection.create_wrapper (f : PyFunc) : Wrapper := ⟨f, []⟩

/-- ParamInjection.add_injection: when the wrapped function takes neither
varargs nor kwargs and the name is not among co_varnames, NoParamError is
raised; otherwise the injection is stored in the injections dict under the
name. -/
def ParamInjection.add_injection (w : Wrapper) (name : String)
    (inj : InjectionPoint) : Except NoParamError Wrapper :=
  if w.func.hasVarargs = false ∧ w.func.hasKwargs = false ∧
      name ∉ w.func.co_varnames then
    .error ⟨name⟩
  else
    .ok ⟨w.func, dinsert w.injections name inj⟩

/-- The decorator returned by ParamInjection(name, type, none): when type is
None the name itself becomes the binding key; an already existing wrapper is
reused, otherwise the function is wrapped first; then add_injection runs and
the wrapper is returned. -/
def ParamInjection.decorate (name : String) (type : Option BKey)
    (noneFlag : Bool) (fw : FuncOrWrapper) : Except NoParamError FuncOrWrapper :=
  let key := type.getD (BKey.strName name)
  let injection : InjectionPoint := ⟨key, noneFlag⟩
  let w := match fw with
    | .wrapped w => w
    | .plain f => ParamInjection.create_wrapper f
  match ParamInjection.add_injection w name injection with
  | .error e => .error e
  | .ok w2 => .ok (.wrapped w2)

/-- A python value at a call site: the super_param sentinel or an ordinary
value. -/
inductive PVal (α : Type)
  | sup
  | val (v : α)
deriving DecidableEq

/-- Errors of a wrapper call: a key without a binding (the injector raises),
and the python call binding errors of the wrapped function; notProvided is
the TypeError raised by AnnotatedParametersInjection. -/
inductive CallErr
  | unbound (k : BKey)
  | duplicateArg (name : String)
  | unexpectedKw (name : String)
  | tooManyArgs
  | missingArg (name : String)
  | notProvided (name : String)
deriving DecidableEq

/-- The kwargs update of injection_wrapper in create_wrapper: every
registered name whose kwargs entry is absent or super_param is fetched from
the injector and stored into kwargs; a registered name with an ordinary
kwargs value is skipped. The two fetching branches are one else branch in
the source. -/
def injection_wrapper_kwargs {α : Type} (r : Registry α)
    (injections : List (String × InjectionPoint))
    (kwargs : List (String × PVal α)) :
    Except CallErr (List (String × PVal α)) :=
  match injections with
  | [] => .ok kwargs
  | (name, inj) :: rest =>
    match dlookup kwargs name with
    | some (PVal.val _) => injection_wrapper_kwargs r rest kwargs
    | some PVal.sup =>
      match inj.get_instance r with
      | some obj =>
          injection_wrapper_kwargs r rest (dinsert kwargs name (PVal.val obj))
      | none => .error (.unbound inj.type)
    | none =>
      match inj.get_instance r with
      | some obj =>
          injection_wrapper_kwargs r rest (dinsert kwargs name (PVal.val obj))
      | none => .error (.unbound inj.type)

/-- Python binding of positional arguments to parameters for a function
without varargs: too many positional arguments is an error. -/
def bindPos {α : Type} : List String → List α → Except CallErr (List (String × α))
  | _, [] => .ok []
  | [], _ :: _ => .error .tooManyArgs
  | p :: ps, a :: rest =>
    match bindPos ps rest with
    | .error e => .error e
    | .ok l => .ok ((p, a) :: l)

/-- Python binding of keyword arguments: a keyword for a positionally filled
parameter is a duplicate, a keyword that names no parameter is unexpected
for a function without varkw. -/
def bindKw {α : Type} (params posFilled : List String) :
    List (String × α) → Except CallErr (List (String × α))
  | [] => .ok []
  | (k, v) :: rest =>
    if k ∈ posFilled then .error (.duplicateArg k)
    else if k ∈ params then
      match bindKw params posFilled rest with
      | .error e => .error e
      | .ok l => .ok ((k, v) :: l)
    else .error (.unexpectedKw k)

/-- Python call binding for a function whose positional parameters are
params, the last numDefaults of them with declared defaults: positional
binding, keyword binding, then the check for missing required parameters. -/
def bindCall {α : Type} (params : List String) (numDefaults : Nat)
    (args : List α) (kwargs : List (String × α)) :
    Except CallErr (List (String × α)) :=
  match bindPos params args with
  | .error e => .error e
  | .ok pos =>
    match bindKw params (params.take args.length) kwargs with
    | .error e => .error e
    | .ok kw =>
      match (params.take (params.length - numDefaults)).find?
          (fun p => (dlookup (pos ++ kw) p).isNone) with
      | some p => .error (.missingArg p)
      | none => .ok (pos ++ kw)

/-- A full call of an injection wrapper: injection_wrapper merges injected
values into kwargs and then calls the wrapped function with the original
positional arguments and the merged kwargs, which python binds to the
parameters of the wrapped function. -/
def wrapperCall {α : Type} (r : Registry α) (w : Wrapper)
    (args : List (PVal α)) (kwargs : List (String × PVal α)) :
    Except CallErr (List (String × PVal α)) :=
  match injection_wrapper_kwargs r w.injections kwargs with
  | .error e => .error e
  | .ok kw => bindCall w.func.args w.func.numDefaults args kw

/-! C9: add_injection raises NoParamError exactly when it must. -/

/-- C9: add_injection raises NoParamError if and only if the wrapped
function accepts neither varargs nor kwargs and the name is not among the
variable names of its code object; otherwise the injection is recorded under
the name, the wrapped function is unchanged and every other entry of the
injections dict is unchanged; the decorator applied to an existing wrapper
errors under exactly the same condition. -/
theorem c9_add_injection_no_param_error (w : Wrapper) (name : String)
    (inj : InjectionPoint) :
    ((∃ e, ParamInjection.add_injection w name inj = .error e) ↔
      (w.func.hasVarargs = false ∧ w.func.hasKwargs = false ∧
        name ∉ w.func.co_varnames)) ∧
    (∀ w2, ParamInjection.add_injection w name inj = .ok w2 →
      w2.func = w.func ∧ dlookup w2.injections name = some inj ∧
      ∀ m, m ≠ name → dlookup w2.injections m = dlookup w.injections m) := by
  by_cases hc : w.func.hasVarargs = false ∧ w.func.hasKwargs = false ∧
      name ∉ w.func.co_varnames
  · constructor
    · exact ⟨fun _ => hc, fun _ => ⟨⟨name⟩, by simp [ParamInjection.add_injection, hc]⟩⟩
    · intro w2 hok
      rw [ParamInjection.add_injection, if_pos hc] at hok
      exact absurd hok (by simp)
  · constructor
    · constructor
      · rintro ⟨e, he⟩
        rw [ParamInjection.add_injection, if_neg hc] at he
        exact absurd he (by simp)
      · intro h; exact absurd h hc
    · intro w2 hok
      rw [ParamInjection.add_injection, if_neg hc] at hok
      have hw2 : w2 = ⟨w.func, dinsert w.injections name inj⟩ :=
        (Except.ok.inj hok).symm
      subst hw2
      exact ⟨rfl, dlookup_dinsert_self _ _ _,
        fun m hm => dlookup_dinsert_ne _ _ _ _ (Ne.symm hm)⟩

/-- C9 witness: for a concrete function def func(arg) with no varargs and no
kwargs, adding an injection under "arg" succeeds and records exactly that
entry, and the error condition of add_injection is false there. -/
theorem c9_add_injection_no_param_error_witness :
    dlookup [("arg", (⟨BKey.strName "k", false⟩ : InjectionPoint))] "arg"
        = some ⟨BKey.strName "k", false⟩ ∧
    dlookup [("arg", (⟨BKey.strName "k", false⟩ : InjectionPoint))] "other"
        = dlookup ([] : List (String × InjectionPoint)) "other" := by
  have h := (c9_add_injection_no_param_error
      ⟨⟨["arg"], 0, [], false, false⟩, []⟩ "arg" ⟨BKey.strName "k", false⟩).2
    ⟨⟨["arg"], 0, [], false, false⟩, [("arg", ⟨BKey.strName "k", false⟩)]⟩
    (by decide)
  exact ⟨h.2.1, h.2.2 "other" (by decide)⟩

/-! C1: what a call of an injection wrapper passes to the wrapped
function. -/

theorem iwk_preserves_val {α : Type} (r : Registry α) (n : String) (v : α)
    (injs : List (String × InjectionPoint)) :
    ∀ (kwargs kw2 : List (String × PVal α)),
      injection_wrapper_kwargs r injs kwargs = .ok kw2 →
      dlookup kwargs n = some (PVal.val v) →
      dlookup kw2 n = some (PVal.val v) := by
  induction injs with
  | nil =>
    intro kwargs kw2 h hv
    rw [injection_wrapper_kwargs] at h
    rw [← Except.ok.inj h]; exact hv
  | cons hd rest ih =>
    intro kwargs kw2 h hv
    obtain ⟨m, inj⟩ := hd
    by_cases hmn : m = n
    · subst hmn
      rw [injection_wrapper_kwargs, hv] at h
      exact ih kwargs kw2 h hv
    · rw [injection_wrapper_kwargs] at h
      cases hk : dlookup kwargs m with
      | none =>
        rw [hk] at h
        cases hg : inj.get_instance r with
        | none => rw [hg] at h; exact absurd h (by simp)
        | some obj =>
          rw [hg] at h
          refine ih _ kw2 h ?_
          rw [dlookup_dinsert_ne _ _ _ _ hmn]; exact hv
      | some pv =>
        cases pv with
        | val u => rw [hk] at h; exact ih kwargs kw2 h hv
        | sup =>
          rw [hk] at h
          cases hg : inj.get_instance r with
          | none => rw [hg] at h; exact absurd h (by simp)
          | some obj =>
            rw [hg] at h
            refine ih _ kw2 h ?_
            rw [dlookup_dinsert_ne _ _ _ _ hmn]; exact hv

theorem iwk_injects {α : Type} (r : Registry α) (n : String)
    (inj : InjectionPoint) (injs : List (String × InjectionPoint)) :
    ∀ (kwargs kw2 : List (String × PVal α)),
      injection_wrapper_kwargs r injs kwargs = .ok kw2 →
      dlookup injs n = some inj →
      (dlookup kwargs n = none ∨ dlookup kwargs n = some PVal.sup) →
      ∃ obj, inj.get_instance r = some obj ∧
        dlookup kw2 n = some (PVal.val obj) := by
  induction injs with
  | nil => intro kwargs kw2 _ hi _; rw [dlookup] at hi; exact absurd hi (by simp)
  | cons hd rest ih =>
    intro kwargs kw2 h hi hk
    obtain ⟨m, i⟩ := hd
    by_cases hmn : m = n
    · subst hmn
      have hin : i = inj := by
        rw [dlookup, if_pos rfl] at hi; exact Option.some.inj hi
      subst hin
      rw [injection_wrapper_kwargs] at h
      rcases hk with hk | hk <;> rw [hk] at h <;>
      · cases hg : i.get_instance r with
        | none => rw [hg] at h; exact absurd h (by simp)
        | some obj =>
          rw [hg] at h
          exact ⟨obj, rfl, iwk_preserves_val r m obj rest _ kw2 h
            (dlookup_dinsert_self kwargs m (PVal.val obj))⟩
    · have hi2 : dlookup rest n = some inj := by
        rw [dlookup, if_neg hmn] at hi; exact hi
      rw [injection_wrapper_kwargs] at h
      cases hkm : dlookup kwargs m with
      | none =>
        rw [hkm] at h
        cases hg : i.get_instance r with
        | none => rw [hg] at h; exact absurd h (by simp)
        | some obj =>
          rw [hg] at h
          refine ih _ kw2 h hi2 ?_
          rw [dlookup_dinsert_ne _ _ _ _ hmn]; exact hk
      | some pv =>
        cases pv with
        | val u => rw [hkm] at h; exact ih kwargs kw2 h hi2 hk
        | sup =>
          rw [hkm] at h
          cases hg : i.get_instance r with
          | none => rw [hg] at h; exact absurd h (by simp)
          | some obj =>
            rw [hg] at h
            refine ih _ kw2 h hi2 ?_
            rw [dlookup_dinsert_ne _ _ _ _ hmn]; exact hk

theorem iwk_untouched {α : Type} (r : Registry α) (n : String)
    (injs : List (String × InjectionPoint)) :
    ∀ (kwargs kw2 : List (String × PVal α)),
      injection_wrapper_kwargs r injs kwargs = .ok kw2 →
      n ∉ injs.map Prod.fst →
      dlookup kw2 n = dlookup kwargs n := by
  induction injs with
  | nil =>
    intro kwargs kw2 h _
    rw [injection_wrapper_kwargs] at h
    rw [← Except.ok.inj h]
  | cons hd rest ih =>
    intro kwargs kw2 h hn
    obtain ⟨m, i⟩ := hd
    rw [List.map_cons, List.mem_cons] at hn
    push_neg at hn
    obtain ⟨hmn, hn2⟩ := hn
    rw [injection_wrapper_kwargs] at h
    cases hkm : dlookup kwargs m with
    | none =>
      rw [hkm] at h
      cases hg : i.get_instance r with
      | none => rw [hg] at h; exact absurd h (by simp)
      | some obj =>
        rw [hg] at h
        rw [ih _ kw2 h hn2, dlookup_dinsert_ne _ _ _ _ (Ne.symm hmn)]
    | some pv =>
      cases pv with
      | val u => rw [hkm] at h; exact ih kwargs kw2 h hn2
      | sup =>
        rw [hkm] at h
        cases hg : i.get_instance r with
        | none => rw [hg] at h; exact absurd h (by simp)
        | some obj =>
          rw [hg] at h
          rw [ih _ kw2 h hn2, dlookup_dinsert_ne _ _ _ _ (Ne.symm hmn)]

/-- C1 counterexample: a registered parameter that the caller supplies
positionally at the call site is still injected as a keyword argument. For
def func(a) wrapped with an injection for "a" whose key is bound in the
registry, the call func(0) fails with a duplicate argument error: the
supplied argument 0 does not reach the wrapped function at all, because the
injection duplicated the parameter. -/
theorem c1_positional_supply_counterexample :
    wrapperCall [(BKey.strName "a", (7 : Nat))]
      ⟨⟨["a"], 0, [], false, false⟩, [("a", ⟨BKey.strName "a", false⟩)]⟩
      [PVal.val 0] []
      = .error (CallErr.duplicateArg "a") := by decide

/-- C1 amended: the injection wrapper merges by keyword only. Every
registered name that the caller does not supply as a keyword argument (or
supplies as super_param) is fetched from the registry and passed to the
wrapped function as a keyword argument; every keyword argument the caller
supplies with an ordinary value reaches the wrapped function unchanged;
kwargs entries outside the injections dict are untouched; and the
positional argument tuple is forwarded unchanged into the python call
binding of the wrapped function. A registered parameter supplied
positionally is nevertheless also injected by keyword, which that binding
rejects as a duplicate argument. -/
theorem c1_wrapper_merges_kwargs {α : Type} (r : Registry α) (w : Wrapper)
    (args : List (PVal α)) (kwargs kw2 : List (String × PVal α))
    (h : injection_wrapper_kwargs r w.injections kwargs = .ok kw2) :
    (∀ n v, dlookup kwargs n = some (PVal.val v) →
      dlookup kw2 n = some (PVal.val v)) ∧
    (∀ n inj, dlookup w.injections n = some inj →
      (dlookup kwargs n = none ∨ dlookup kwargs n = some PVal.sup) →
      ∃ obj, inj.get_instance r = some obj ∧
        dlookup kw2 n = some (PVal.val obj)) ∧
    (∀ n, n ∉ w.injections.map Prod.fst →
      dlookup kw2 n = dlookup kwargs n) ∧
    wrapperCall r w args kwargs
      = bindCall w.func.args w.func.numDefaults args kw2 := by
  refine ⟨fun n v hv => iwk_preserves_val r n v w.injections kwargs kw2 h hv,
    fun n inj hi hk => iwk_injects r n inj w.injections kwargs kw2 h hi hk,
    fun n hn => iwk_untouched r n w.injections kwargs kw2 h hn, ?_⟩
  rw [wrapperCall, h]

/-- C1 witness: for def func(x, b) wrapped with an injection for "b" bound
to 5, the call func(x=9) forwards x unchanged, injects b as the keyword 5,
leaves the unregistered name "zz" untouched, and calls the wrapped function
with the merged kwargs. -/
theorem c1_wrapper_merges_kwargs_witness :
    dlookup [("x", PVal.val (9 : Nat)), ("b", PVal.val 5)] "x"
        = some (PVal.val 9) ∧
    dlookup [("x", PVal.val (9 : Nat)), ("b", PVal.val 5)] "b"
        = some (PVal.val 5) ∧
    dlookup [("x", PVal.val (9 : Nat)), ("b", PVal.val 5)] "zz"
        = dlookup [("x", PVal.val (9 : Nat))] "zz" ∧
    wrapperCall [(BKey.strName "b", (5 : Nat))]
        ⟨⟨["x", "b"], 0, [], false, false⟩, [("b", ⟨BKey.strName "b", false⟩)]⟩
        [] [("x", PVal.val 9)]
      = bindCall ["x", "b"] 0 []
          [("x", PVal.val (9 : Nat)), ("b", PVal.val 5)] := by
  have h := c1_wrapper_merges_kwargs [(BKey.strName "b", (5 : Nat))]
    ⟨⟨["x", "b"], 0, [], false, false⟩, [("b", ⟨BKey.strName "b", false⟩)]⟩
    [] [("x", PVal.val 9)] [("x", PVal.val 9), ("b", PVal.val 5)] (by decide)
  obtain ⟨obj, hg, hl⟩ := h.2.1 "b" ⟨BKey.strName "b", false⟩ (by decide)
    (Or.inl (by decide))
  have hobj : obj = 5 := by
    have h5 : InjectionPoint.get_instance ⟨BKey.strName "b", false⟩
        [(BKey.strName "b", (5 : Nat))] = some 5 := by decide
    exact Option.some.inj (hg.symm.trans h5)
  subst hobj
  exact ⟨h.1 "x" 9 (by decide), hl, h.2.2.1 "zz" (by decide), h.2.2.2⟩

/-! C6: stacking ParamInjection decorators. -/

/-- One application of the ParamInjection decorator, as data: the parameter
name, the optional explicit key and the none flag. -/
structure PDec where
  name : String
  key : Option BKey
  noneFlag : Bool
deriving DecidableEq

/-- The injection point one decorator application builds. -/
def PDec.point (d : PDec) : InjectionPoint :=
  ⟨d.key.getD (BKey.strName d.name), d.noneFlag⟩

/-- A stack of ParamInjection decorators applied to a callable, innermost
decorator first, the order python applies stacked decorators. -/
def decorateAll (ds : List PDec) (fw : FuncOrWrapper) :
    Except NoParamError FuncOrWrapper :=
  match ds with
  | [] => .ok fw
  | d :: rest =>
    match ParamInjection.decorate d.name d.key d.noneFlag fw with
    | .error e => .error e
    | .ok fw2 => decorateAll rest fw2

theorem decorate_wrapped_step (d : PDec) (w : Wrapper) (fw : FuncOrWrapper)
    (h : ParamInjection.decorate d.name d.key d.noneFlag (.wrapped w) = .ok fw) :
    fw = .wrapped ⟨w.func, dinsert w.injections d.name d.point⟩ := by
  rw [ParamInjection.decorate] at h
  cases ha : ParamInjection.add_injection w d.name d.point with
  | error e =>
    rw [show ParamInjection.add_injection w d.name
        ⟨d.key.getD (BKey.strName d.name), d.noneFlag⟩
        = .error e from ha] at h
    exact absurd h (by simp)
  | ok w2 =>
    rw [show ParamInjection.add_injection w d.name
        ⟨d.key.getD (BKey.strName d.name), d.noneFlag⟩
        = .ok w2 from ha] at h
    have hw2 : w2 = ⟨w.func, dinsert w.injections d.name d.point⟩ := by
      rw [ParamInjection.add_injection] at ha
      by_cases hc : w.func.hasVarargs = false ∧ w.func.hasKwargs = false ∧
          d.name ∉ w.func.co_varnames
      · rw [if_pos hc] at ha; exact absurd ha (by simp)
      · rw [if_neg hc] at ha
        exact (Except.ok.inj ha).symm
    rw [← Except.ok.inj h, hw2]

theorem decorateAll_wrapped (ds : List PDec) :
    ∀ (w : Wrapper) (fw : FuncOrWrapper),
      decorateAll ds (.wrapped w) = .ok fw →
      fw = .wrapped ⟨w.func,
        ds.foldl (fun m d => dinsert m d.name d.point) w.injections⟩ := by
  induction ds with
  | nil =>
    intro w fw h
    rw [decorateAll] at h
    rw [← Except.ok.inj h, List.foldl_nil]
  | cons d rest ih =>
    intro w fw h
    rw [decorateAll] at h
    cases hs : ParamInjection.decorate d.name d.key d.noneFlag (.wrapped w) with
    | error e => rw [hs] at h; exact absurd h (by simp)
    | ok fw2 =>
      rw [hs] at h
      have h2 := decorate_wrapped_step d w fw2 hs
      subst h2
      rw [List.foldl_cons]
      exact ih _ fw h

theorem foldl_dinsert_keys_nodup (ds : List PDec) :
    ∀ acc : List (String × InjectionPoint),
      (acc.map Prod.fst).Nodup →
      ((ds.foldl (fun m d => dinsert m d.name d.point) acc).map Prod.fst).Nodup := by
  induction ds with
  | nil => intro acc h; exact h
  | cons d rest ih =>
    intro acc h
    rw [List.foldl_cons]
    exact ih _ (dinsert_keys_nodup acc d.name d.point h)

/-- C6: a nonempty stack of ParamInjection decorators on a plain function
wraps the function exactly once: the result is a single wrapper whose
wrapped function is the original one and whose injections dict is the
accumulation of the single (name, injection) entries, each decorator only
adding its entry to the dict of the wrapper it receives; the keys of the
dict are distinct, so a call of the wrapper resolves each injected name
exactly once. -/
theorem c6_stacked_decorators_wrap_once (ds : List PDec) (f : PyFunc)
    (fw : FuncOrWrapper) (hne : ds ≠ [])
    (h : decorateAll ds (.plain f) = .ok fw) :
    fw = .wrapped ⟨f, ds.foldl (fun m d => dinsert m d.name d.point) []⟩ ∧
    ((ds.foldl (fun m d => dinsert m d.name d.point) []).map Prod.fst).Nodup := by
  refine ⟨?_, foldl_dinsert_keys_nodup ds [] (by simp)⟩
  cases ds with
  | nil => exact absurd rfl hne
  | cons d rest =>
    rw [decorateAll] at h
    cases hs : ParamInjection.decorate d.name d.key d.noneFlag (.plain f) with
    | error e => rw [hs] at h; exact absurd h (by simp)
    | ok fw2 =>
      rw [hs] at h
      have h2 : fw2 = .wrapped ⟨f, dinsert [] d.name d.point⟩ := by
        rw [ParamInjection.decorate, ParamInjection.create_wrapper] at hs
        cases ha : ParamInjection.add_injection ⟨f, []⟩ d.name d.point with
        | error e =>
          rw [show ParamInjection.add_injection ⟨f, []⟩ d.name
              ⟨d.key.getD (BKey.strName d.name), d.noneFlag⟩
              = .error e from ha] at hs
          exact absurd hs (by simp)
        | ok w2 =>
          rw [show ParamInjection.add_injection ⟨f, []⟩ d.name
              ⟨d.key.getD (BKey.strName d.name), d.noneFlag⟩
              = .ok w2 from ha] at hs
          have hw2 : w2 = ⟨f, dinsert [] d.name d.point⟩ := by
            rw [ParamInjection.add_injection] at ha
            by_cases hc : (⟨f, []⟩ : Wrapper).func.hasVarargs = false ∧
                (⟨f, []⟩ : Wrapper).func.hasKwargs = false ∧
                d.name ∉ (⟨f, []⟩ : Wrapper).func.co_varnames
            · rw [if_pos hc] at ha; exact absurd ha (by simp)
            · rw [if_neg hc] at ha; exact (Except.ok.inj ha).symm
          rw [← Except.ok.inj hs, hw2]
      subst h2
      rw [List.foldl_cons]
      exact decorateAll_wrapped rest _ fw h

/-- C6 witness: stacking two concrete decorators on def func(b, a) yields
one wrapper around the original function holding both injection entries
with distinct keys. -/
theorem c6_stacked_decorators_wrap_once_witness :
    decorateAll
        [⟨"b", some (BKey.cls (PyType.user "B")), false⟩,
         ⟨"a", some (BKey.cls (PyType.user "A")), false⟩]
        (.plain ⟨["b", "a"], 0, [], false, false⟩)
      = .ok (.wrapped ⟨⟨["b", "a"], 0, [], false, false⟩,
          [("b", ⟨BKey.cls (PyType.user "B"), false⟩),
           ("a", ⟨BKey.cls (PyType.user "A"), false⟩)]⟩) ∧
    ((([⟨"b", some (BKey.cls (PyType.user "B")), false⟩,
        ⟨"a", some (BKey.cls (PyType.user "A")), false⟩] : List PDec).foldl
        (fun m d => dinsert m d.name d.point) []).map Prod.fst).Nodup := by
  have h := c6_stacked_decorators_wrap_once
    [⟨"b", some (BKey.cls (PyType.user "B")), false⟩,
     ⟨"a", some (BKey.cls (PyType.user "A")), false⟩]
    ⟨["b", "a"], 0, [], false, false⟩
    (.wrapped ⟨⟨["b", "a"], 0, [], false, false⟩,
      [("b", ⟨BKey.cls (PyType.user "B"), false⟩),
       ("a", ⟨BKey.cls (PyType.user "A"), false⟩)]⟩)
    (by decide) (by decide)
  exact ⟨by decide, h.2⟩

/-! C7: the parameter name as the default binding key. -/

/-- C7: a ParamInjection created without an explicit type uses the parameter
name string itself as the binding key: the decorator yields a wrapper whose
single injection point carries the key strName name, and when the decorated
function is called without that parameter the wrapper fetches exactly the
instance bound to that string name in the registry and passes it as the
keyword argument for the parameter. -/
theorem c7_name_becomes_key {α : Type} (name : String) (f : PyFunc)
    (fw : FuncOrWrapper) (r : Registry α) (v : α)
    (hd : ParamInjection.decorate name none false (.plain f) = .ok fw)
    (hb : Injector.get_instance r (BKey.strName name) = some v) :
    fw = .wrapped ⟨f, [(name, ⟨BKey.strName name, false⟩)]⟩ ∧
    injection_wrapper_kwargs r [(name, ⟨BKey.strName name, false⟩)] []
      = .ok [(name, PVal.val v)] := by
  constructor
  · rw [ParamInjection.decorate, ParamInjection.create_wrapper] at hd
    cases ha : ParamInjection.add_injection ⟨f, []⟩ name
        ⟨(none : Option BKey).getD (BKey.strName name), false⟩ with
    | error e => rw [ha] at hd; exact absurd hd (by simp)
    | ok w2 =>
      rw [ha] at hd
      have hw2 : w2 = ⟨f, [(name, ⟨BKey.strName name, false⟩)]⟩ := by
        rw [ParamInjection.add_injection] at ha
        by_cases hc : (⟨f, []⟩ : Wrapper).func.hasVarargs = false ∧
            (⟨f, []⟩ : Wrapper).func.hasKwargs = false ∧
            name ∉ (⟨f, []⟩ : Wrapper).func.co_varnames
        · rw [if_pos hc] at ha; exact absurd ha (by simp)
        · rw [if_neg hc] at ha
          rw [← Except.ok.inj ha]
          rw [show dinsert (⟨f, []⟩ : Wrapper).injections name
              (⟨(none : Option BKey).getD (BKey.strName name), false⟩
                : InjectionPoint)
              = [(name, ⟨BKey.strName name, false⟩)] from rfl]
      rw [← Except.ok.inj hd, hw2]
  · rw [injection_wrapper_kwargs]
    rw [show dlookup ([] : List (String × PVal α)) name = none from rfl]
    rw [show InjectionPoint.get_instance ⟨BKey.strName name, false⟩ r
        = some v from hb]
    rfl

/-- C7 witness: for def func(a) decorated with ParamInjection of name "a"
and no type, and a registry binding the string name "a" to 3, the wrapper
holds the key strName "a" and a call with no arguments injects the keyword
a = 3. -/
theorem c7_name_becomes_key_witness :
    (FuncOrWrapper.wrapped ⟨⟨["a"], 0, [], false, false⟩,
        [("a", ⟨BKey.strName "a", false⟩)]⟩
      = FuncOrWrapper.wrapped ⟨⟨["a"], 0, [], false, false⟩,
        [("a", ⟨BKey.strName "a", false⟩)]⟩) ∧
    injection_wrapper_kwargs [(BKey.strName "a", (3 : Nat))]
        [("a", ⟨BKey.strName "a", false⟩)] []
      = .ok [("a", PVal.val 3)] :=
  c7_name_becomes_key "a" ⟨["a"], 0, [], false, false⟩
    (.wrapped ⟨⟨["a"], 0, [], false, false⟩, [("a", ⟨BKey.strName "a", false⟩)]⟩)
    [(BKey.strName "a", (3 : Nat))] 3 (by decide) (by decide)

/-! AnnotatedParametersInjection: annotation driven parameter injection. -/

/-- A python annotation as build_injection_points inspects it: a class, a
Tagged (type, tag) pair, or any other value (which gets no injection
point). -/
inductive Ann
  | cls (t : PyType)
  | tg (t : PyType) (tag : String)
  | other
deriving DecidableEq

/-- The full argument spec of inspect, with defaults and kwonlydefaults
already normalised to empty collections when absent, as build_args_spec
does; anns models the annotations dict restricted to parameter names. -/
structure FullArgSpec (α : Type) where
  args : List String
  hasVarargs : Bool
  hasVarkw : Bool
  defaults : List α
  kwonlyargs : List String
  kwonlydefaults : List (String × α)
  anns : List (String × Ann)
deriving DecidableEq

/-- base_exclude_types of AnnotatedParametersInjection: builtin types that
never get an injection point. -/
def base_exclude_types : List PyType :=
  [.bool, .int, .float, .complex, .bytes, .bytearray, .dict, .list, .tuple,
   .range, .set, .frozenset, .str]

/-- One entry of the exclude argument of annotated: a type, a name or a
Tagged pair (the constructor sorts them into the three exclude sets). -/
inductive ExcludeItem
  | ty (t : PyType)
  | nm (s : String)
  | tg (t : PyType) (tag : String)
deriving DecidableEq

/-- build_args_spec: the literal expression len(defaults) or None of the
source, namely len(defaults) when that is nonzero and None otherwise, used
as the end of the slice of positional parameters to fill. -/
def build_args_spec {α : Type} (spec : FullArgSpec α) : Option Nat :=
  if spec.defaults.length = 0 then none else some spec.defaults.length

/-- The body of the loop of build_injection_points for one parameter name:
skip excluded names, missing annotations, annotations that are neither a
class nor Tagged, excluded types and excluded tags; otherwise store an
InjectionPoint for the annotation under the name. -/
def injection_point_step {α : Type} (spec : FullArgSpec α)
    (excludeNames : List String) (excludeTypes : List PyType)
    (excludeTags : List (PyType × String))
    (pts : List (String × InjectionPoint)) (name : String) :
    List (String × InjectionPoint) :=
  if name ∈ excludeNames then pts
  else
    match dlookup spec.anns name with
    | none => pts
    | some (Ann.cls t) =>
        if t ∈ excludeTypes then pts
        else dinsert pts name ⟨BKey.cls t, false⟩
    | some (Ann.tg t tag) =>
        if (t, tag) ∈ excludeTags then pts
        else dinsert pts name ⟨BKey.tagged t tag, false⟩
    | some Ann.other => pts

/-- build_injection_points: the loop over positional then keyword-only
parameter names. -/
def build_injection_points {α : Type} (spec : FullArgSpec α)
    (excludeNames : List String) (excludeTypes : List PyType)
    (excludeTags : List (PyType × String)) : List (String × InjectionPoint) :=
  (spec.args ++ spec.kwonlyargs).foldl
    (injection_point_step spec excludeNames excludeTypes excludeTags) []

/-- The state AnnotatedParametersInjection builds in its constructor. -/
structure AnnotatedParametersInjection (α : Type) where
  arg_spec : FullArgSpec α
  args_limit : Option Nat
  injection_points : List (String × InjectionPoint)
  exclude_names : List String
  exclude_types : List PyType
  exclude_tags : List (PyType × String)
deriving DecidableEq

/-- The AnnotatedParametersInjection constructor: the exclude items are
sorted into names, types and tags, starting from the base excluded builtin
types, then build_args_spec and build_injection_points run. -/
def AnnotatedParametersInjection.make {α : Type} (spec : FullArgSpec α)
    (exclude : List ExcludeItem) : AnnotatedParametersInjection α :=
  let excludeTypes := base_exclude_types ++ exclude.filterMap (fun e =>
    match e with | .ty t => some t | _ => none)
  let excludeNames := exclude.filterMap (fun e =>
    match e with | .nm s => some s | _ => none)
  let excludeTags := exclude.filterMap (fun e =>
    match e with | .tg t tag => some (t, tag) | _ => none)
  { arg_spec := spec
    args_limit := build_args_spec spec
    injection_points :=
      build_injection_points spec excludeNames excludeTypes excludeTags
    exclude_names := excludeNames
    exclude_types := excludeTypes
    exclude_tags := excludeTags }

/-- The python slice xs[i:limit], limit possibly None. -/
def pySlice {β : Type} (xs : List β) (i : Nat) (limit : Option Nat) : List β :=
  match limit with
  | none => xs.drop i
  | some l => (xs.take l).drop i

/-- The first loop of AnnotatedParametersInjection.call: for every name of
the slice of positional parameters, append the popped caller keyword value,
else the instance of the injection point of the name, else raise the
TypeError for a parameter neither provided nor injected. -/
def fillPositional {α : Type} (r : Registry α)
    (pts : List (String × InjectionPoint)) :
    List String → List α → List (String × α) →
    Except CallErr (List α × List (String × α))
  | [], args, kwargs => .ok (args, kwargs)
  | name :: rest, args, kwargs =>
    match dlookup kwargs name with
    | some v => fillPositional r pts rest (args ++ [v]) (dpop kwargs name)
    | none =>
      match dlookup pts name with
      | some inj =>
        match inj.get_instance r with
        | some obj => fillPositional r pts rest (args ++ [obj]) kwargs
        | none => .error (.unbound inj.type)
      | none => .error (.notProvided name)

/-- The second loop of AnnotatedParametersInjection.call: every keyword-only
parameter neither given in kwargs nor having a declared default is injected
into kwargs, else the TypeError is raised. -/
def fillKwonly {α : Type} (r : Registry α)
    (pts : List (String × InjectionPoint))
    (kwonlydefaults : List (String × α)) :
    List String → List (String × α) → Except CallErr (List (String × α))
  | [], kwargs => .ok kwargs
  | name :: rest, kwargs =>
    if (dlookup kwargs name).isSome || (dlookup kwonlydefaults name).isSome then
      fillKwonly r pts kwonlydefaults rest kwargs
    else
      match dlookup pts name with
      | some inj =>
        match inj.get_instance r with
        | some obj =>
            fillKwonly r pts kwonlydefaults rest (dinsert kwargs name obj)
        | none => .error (.unbound inj.type)
      | none => .error (.notProvided name)

/-- AnnotatedParametersInjection.call: when fewer positional arguments than
parameters without defaults are given, the slice
spec.args[len(args):args_limit] is filled; then the keyword-only loop runs;
the result is the positional and keyword arguments passed on to the wrapped
function. -/
def annCall {α : Type} (r : Registry α) (p : AnnotatedParametersInjection α)
    (args : List α) (kwargs : List (String × α)) :
    Except CallErr (List α × List (String × α)) :=
  let spec := p.arg_spec
  let first :=
    if (spec.args.length : Int) - (spec.defaults.length : Int)
        > (args.length : Int) then
      fillPositional r p.injection_points
        (pySlice spec.args args.length p.args_limit) args kwargs
    else .ok (args, kwargs)
  match first with
  | .error e => .error e
  | .ok (args2, kwargs2) =>
    match fillKwonly r p.injection_points spec.kwonlydefaults
        spec.kwonlyargs kwargs2 with
    | .error e => .error e
    | .ok kwargs3 => .ok (args2, kwargs3)

/-! C2: the args_limit slice at a failing input. -/

/-- C2: the code at the failing input. For def f(a, b, c=9) with a and b
annotated with injectable user classes, both bound in the registry, the
call f() fills only the parameter a, because args_limit is len(defaults)
= 1 rather than the index of the first defaulted parameter, so the slice
args[0:1] omits b. The wrapped function is then called with one positional
argument and python rejects that call for the missing required parameter b,
although b has an injection point and a binding: the claim that exactly the
no-default parameters a and b are filled fails on the code. -/
theorem c2_args_limit_cuts_fill :
    annCall [(BKey.cls (PyType.user "A"), (1 : Nat)),
             (BKey.cls (PyType.user "B"), 2)]
      (AnnotatedParametersInjection.make
        ⟨["a", "b", "c"], false, false, [9], [], [],
         [("a", Ann.cls (PyType.user "A")), ("b", Ann.cls (PyType.user "B"))]⟩
        [])
      [] []
      = .ok ([1], []) ∧
    dlookup (AnnotatedParametersInjection.make
        ⟨["a", "b", "c"], false, false, [(9 : Nat)], [], [],
         [("a", Ann.cls (PyType.user "A")), ("b", Ann.cls (PyType.user "B"))]⟩
        []).injection_points "b"
      = some ⟨BKey.cls (PyType.user "B"), false⟩ ∧
    Injector.get_instance [(BKey.cls (PyType.user "A"), (1 : Nat)),
        (BKey.cls (PyType.user "B"), 2)] (BKey.cls (PyType.user "B"))
      = some 2 ∧
    bindCall ["a", "b", "c"] 1 [(1 : Nat)] []
      = .error (CallErr.missingArg "b") := by
  refine ⟨by decide, by decide, by decide, by decide⟩

/-! C10: builtin annotated parameters never get injection points. -/

theorem step_preserves_none {α : Type} (spec : FullArgSpec α)
    (excludeNames : List String) (excludeTypes : List PyType)
    (excludeTags : List (PyType × String)) (name m : String) (t : PyType)
    (ht : t ∈ excludeTypes)
    (ha : dlookup spec.anns name = some (Ann.cls t))
    (pts : List (String × InjectionPoint))
    (hp : dlookup pts name = none) :
    dlookup (injection_point_step spec excludeNames excludeTypes excludeTags
      pts m) name = none := by
  rw [injection_point_step]
  by_cases hmem : m ∈ excludeNames
  · rw [if_pos hmem]; exact hp
  · rw [if_neg hmem]
    by_cases hmn : m = name
    · subst hmn
      rw [ha]
      show dlookup (if t ∈ excludeTypes then pts
        else dinsert pts m ⟨BKey.cls t, false⟩) m = none
      rw [if_pos ht]
      exact hp
    · cases h2 : dlookup spec.anns m with
      | none => exact hp
      | some a =>
        cases a with
        | cls t2 =>
          show dlookup (if t2 ∈ excludeTypes then pts
            else dinsert pts m ⟨BKey.cls t2, false⟩) name = none
          by_cases h3 : t2 ∈ excludeTypes
          · rw [if_pos h3]; exact hp
          · rw [if_neg h3, dlookup_dinsert_ne _ _ _ _ hmn]; exact hp
        | tg t2 tag =>
          show dlookup (if (t2, tag) ∈ excludeTags then pts
            else dinsert pts m ⟨BKey.tagged t2 tag, false⟩) name = none
          by_cases h3 : (t2, tag) ∈ excludeTags
          · rw [if_pos h3]; exact hp
          · rw [if_neg h3, dlookup_dinsert_ne _ _ _ _ hmn]; exact hp
        | other => exact hp

theorem foldl_step_none {α : Type} (spec : FullArgSpec α)
    (excludeNames : List String) (excludeTypes : List PyType)
    (excludeTags : List (PyType × String)) (name : String) (t : PyType)
    (ht : t ∈ excludeTypes)
    (ha : dlookup spec.anns name = some (Ann.cls t)) :
    ∀ (ns : List String) (acc : List (String × InjectionPoint)),
      dlookup acc name = none →
      dlookup (ns.foldl (injection_point_step spec excludeNames excludeTypes
        excludeTags) acc) name = none := by
  intro ns
  induction ns with
  | nil => intro acc h; exact h
  | cons m rest ih =>
    intro acc h
    rw [List.foldl_cons]
    exact ih _ (step_preserves_none spec excludeNames excludeTypes excludeTags
      name m t ht ha acc h)

/-- C10: a parameter whose annotation is one of the builtin types of
base_exclude_types never receives an injection point, whatever the exclude
argument of annotated is (in particular when it is empty), so a call cannot
fill it by injection. -/
theorem c10_builtin_annotation_not_injected {α : Type} (spec : FullArgSpec α)
    (exclude : List ExcludeItem) (name : String) (t : PyType)
    (ht : t ∈ base_exclude_types)
    (ha : dlookup spec.anns name = some (Ann.cls t)) :
    dlookup (AnnotatedParametersInjection.make spec exclude).injection_points
      name = none := by
  rw [AnnotatedParametersInjection.make, build_injection_points]
  exact foldl_step_none spec _ _ _ name t
    (List.mem_append_left _ ht) ha (spec.args ++ spec.kwonlyargs) [] rfl

/-- C10 witness: a concrete parameter n annotated with the builtin int gets
no injection point although no exclude argument is given. -/
theorem c10_builtin_annotation_not_injected_witness :
    dlookup (AnnotatedParametersInjection.make
      (⟨["n"], false, false, [], [], [], [("n", Ann.cls PyType.int)]⟩
        : FullArgSpec Nat) []).injection_points "n" = none :=
  c10_builtin_annotation_not_injected
    (⟨["n"], false, false, [], [], [], [("n", Ann.cls PyType.int)]⟩
      : FullArgSpec Nat) [] "n" PyType.int (by decide) (by decide)

/-! C8: the request scope in the WSGI middleware. -/

/-- Events observable from a run of the generator returned by
WsgiInjectMiddleware.call: the scope start, each yielded response chunk, the
scope end of the finally block, and an exception propagating to the
consumer. -/
inductive MWEvent
  | scopeStart
  | yieldChunk (c : Nat)
  | scopeEnd
  | raised
deriving DecidableEq

/-- How a request run ends: the consumer exhausts the response, the response
iterator of the wrapped application raises after k chunks, or the consumer
closes the middleware generator after k chunks (GeneratorExit). -/
inductive RunOutcome
  | consumed
  | appRaises (k : Nat)
  | consumerCloses (k : Nat)
deriving DecidableEq

/-- The event trace of one request through WsgiInjectMiddleware.call, whose
wrapped application yields the given chunks: the generator body runs
scope.start() inside try, yields each chunk of the application response, and
the finally block runs scope.end() on normal exhaustion, when the response
iterator raises (the exception then propagates), and on generator close. -/
def middlewareTrace (chunks : List Nat) : RunOutcome → List MWEvent
  | .consumed =>
      MWEvent.scopeStart :: (chunks.map MWEvent.yieldChunk ++ [MWEvent.scopeEnd])
  | .appRaises k =>
      MWEvent.scopeStart :: ((chunks.take k).map MWEvent.yieldChunk
        ++ [MWEvent.scopeEnd, MWEvent.raised])
  | .consumerCloses k =>
      MWEvent.scopeStart :: ((chunks.take k).map MWEvent.yieldChunk
        ++ [MWEvent.scopeEnd])

/-- C8: on every exit path of a request run, the scope is started before any
chunk of the response of the wrapped application is yielded, and scope.end()
runs exactly once, after the whole consumed response body: the trace is the
start, then only yield events, then the single end, followed at most by the
propagated exception. -/
theorem c8_scope_started_and_ended_once (chunks : List Nat) (o : RunOutcome) :
    ∃ ys rest, middlewareTrace chunks o
        = MWEvent.scopeStart :: (ys ++ MWEvent.scopeEnd :: rest) ∧
      (∀ e ∈ ys, ∃ c, e = MWEvent.yieldChunk c) ∧
      (rest = [] ∨ rest = [MWEvent.raised]) ∧
      (middlewareTrace chunks o).count MWEvent.scopeEnd = 1 := by
  have hmap : ∀ (l : List Nat), (l.map MWEvent.yieldChunk).count MWEvent.scopeEnd = 0 := by
    intro l
    rw [List.count_eq_zero]
    simp
  have hmem : ∀ (l : List Nat), ∀ e ∈ l.map MWEvent.yieldChunk,
      ∃ c, e = MWEvent.yieldChunk c := by
    intro l e he
    rw [List.mem_map] at he
    obtain ⟨c, _, hc⟩ := he
    exact ⟨c, hc.symm⟩
  cases o with
  | consumed =>
    refine ⟨chunks.map MWEvent.yieldChunk, [], by
      rw [middlewareTrace], hmem chunks, Or.inl rfl, ?_⟩
    rw [middlewareTrace]
    simp [List.count_cons, List.count_append, hmap chunks]
  | appRaises k =>
    refine ⟨(chunks.take k).map MWEvent.yieldChunk, [MWEvent.raised], by
      rw [middlewareTrace], hmem (chunks.take k), Or.inr rfl, ?_⟩
    have h0 : (List.take k (List.map MWEvent.yieldChunk chunks)).count
        MWEvent.scopeEnd = 0 := by
      rw [← List.map_take]
      exact hmap (chunks.take k)
    rw [middlewareTrace]
    simp [List.count_cons, List.count_append, h0]
  | consumerCloses k =>
    refine ⟨(chunks.take k).map MWEvent.yieldChunk, [], by
      rw [middlewareTrace], hmem (chunks.take k), Or.inl rfl, ?_⟩
    have h0 : (List.take k (List.map MWEvent.yieldChunk chunks)).count
        MWEvent.scopeEnd = 0 := by
      rw [← List.map_take]
      exact hmap (chunks.take k)
    rw [middlewareTrace]
    simp [List.count_cons, List.count_append, h0]

end PyInject
